import Mathlib

/-!
Verification of the AI Investor Daily pipeline (index.js and its sibling
variants).  JavaScript strings are modelled as lists of characters
(`Str`), JavaScript `null`/`undefined`-able values as `Option`, and the
network oracles (RSS fetch, page fetch, Yahoo search/quote) as explicit
function parameters, so that every pipeline stage becomes a pure,
executable Lean function mirroring the source line by line.
-/

set_option maxRecDepth 4000

/-- JavaScript strings, modelled as lists of characters. -/
abbrev Str := List Char

/-- Model of `String.prototype.toLowerCase` (ASCII view). -/
def lowerStr (s : Str) : Str := s.map Char.toLower

/-- Model of `String.prototype.toUpperCase` (ASCII view). -/
def upperStr (s : Str) : Str := s.map Char.toUpper

/-- JavaScript `a || b` on strings: the empty string is falsy. -/
def jsOr (a b : Str) : Str := if a = [] then b else a

/-- Does `s` start with `p`?  (Helper for the substring check below.) -/
def strStarts : Str → Str → Bool
  | [], _ => true
  | _ :: _, [] => false
  | c :: p, d :: s => decide (c = d) && strStarts p s

/-- Model of `String.prototype.includes`: `includesStr t k` is true iff
`k` occurs as a contiguous substring of `t`. -/
def includesStr : Str → Str → Bool
  | [], k => k.isEmpty
  | t@(_ :: rest), k => strStarts k t || includesStr rest k

/-- The fixed keyword list of index.js line 34. -/
def KEYWORDS : List Str :=
  ["AI".data, "artificial intelligence".data, "machine learning".data,
   "LLM".data, "large language model".data, "GPT".data, "Claude".data,
   "Copilot".data, "chatbot".data, "neural".data, "deep learning".data]

/-- index.js lines 42-46: `matchesKeywords(text)`.  A falsy (empty)
string never matches; otherwise the lowercased text must contain some
lowercased keyword as a substring. -/
def matchesKeywords (text : Str) : Bool :=
  if text = [] then false
  else KEYWORDS.any (fun k => includesStr (lowerStr text) (lowerStr k))

/-- A parsed RSS feed item (index.js lines 55-60). -/
structure FeedItem where
  title : Str
  link : Str
  pubDate : Option Int
  source : Str
deriving DecidableEq

/-- index.js line 305: keep items whose title or source matches. -/
def keywordFilter (items : List FeedItem) : List FeedItem :=
  items.filter (fun it => matchesKeywords it.title || matchesKeywords it.source)

/-- The result of fetching and parsing a page for the paywall check:
the visible body text plus the number of elements matched by the
paywall CSS selector probes of index.js line 78. -/
structure Page where
  bodyText : Str
  paywallSelectorHits : Nat
deriving DecidableEq

/-- The fixed phrase list of index.js line 76. -/
def paywallHints : List Str :=
  ["subscribe".data, "sign in to continue".data,
   "full article is for subscribers".data, "to continue reading".data,
   "please subscribe".data, "log in to view".data,
   "become a member".data, "subscription required".data]

/-- index.js lines 71-84: `isLikelyPaywalled`.  The fetch/parse is
modelled by its outcome (`Except`): the `catch` branch returns `true`
("treat unreachable as paywalled to be safe"). -/
def isLikelyPaywalled (fetched : Except Str Page) : Bool :=
  match fetched with
  | Except.ok page =>
    let text := lowerStr (page.bodyText.take 4000)
    if paywallHints.any (fun h => includesStr text h) then true
    else if 0 < page.paywallSelectorHits then true
    else false
  | Except.error _ => true

/-- Splitting at each whitespace character, keeping empty segments.
Together with the `filter(Boolean)` step below this models
`text.split(/\s+/).filter(Boolean)` of index.js line 103 (splitting on
a run of whitespace and dropping empties is the same as splitting at
each whitespace character and dropping empties). -/
def splitWs : Str → List Str
  | [] => [[]]
  | c :: cs =>
    if c.isWhitespace then [] :: splitWs cs
    else
      match splitWs cs with
      | [] => [[c]]
      | w :: ws => (c :: w) :: ws

/-- The whitespace-delimited tokens of a string: split, drop empties
(index.js line 103). -/
def wordsOf (t : Str) : List Str := (splitWs t).filter (fun w => !w.isEmpty)

/-- Model of `Array.prototype.join(' ')` (index.js line 104). -/
def joinSp : List Str → Str
  | [] => []
  | [w] => w
  | w :: x :: rest => w ++ ' ' :: joinSp (x :: rest)

/-- index.js lines 101-105: `firstNWords(text, n)`. -/
def firstNWords (text : Str) (n : Nat) : Str :=
  if text = [] then [] else joinSp ((wordsOf text).take n)

/-- A free article as assembled in the main loop (index.js line 318). -/
structure Article where
  title : Str
  link : Str
  pubDate : Option Int
  source : Str
  text : Str
  excerpt : Str
deriving DecidableEq

/-- index.js line 318: the object pushed onto `freeArticles`. -/
def mkArticle (it : FeedItem) (text : Str) : Article :=
  { title := it.title, link := it.link, pubDate := it.pubDate,
    source := it.source, text := text, excerpt := firstNWords text 100 }

def MAX_ARTICLES : Nat := 10

/-- `freeArticles.find(a => a.link === link)` viewed as a Boolean. -/
def hasLink (acc : List Article) (l : Str) : Bool :=
  acc.any (fun a => decide (a.link = l))

/-- index.js lines 308-324: the primary selection loop.  `pw` is the
paywall classification oracle (`isLikelyPaywalled` applied to the fetch
of a link) and `textOf` the article-text oracle (`fetchArticleText`).
Items without a link or with an already-used link are skipped; an item
classified paywalled is skipped; the loop breaks once `MAX_ARTICLES`
articles have been collected. -/
def collectFreeStrict (pw : Str → Bool) (textOf : Str → Str) :
    List FeedItem → List Article → List Article
  | [], acc => acc
  | it :: rest, acc =>
    if it.link = [] then collectFreeStrict pw textOf rest acc
    else if hasLink acc it.link then collectFreeStrict pw textOf rest acc
    else
      let acc' := if pw it.link then acc else acc ++ [mkArticle it (textOf it.link)]
      if MAX_ARTICLES ≤ acc'.length then acc'
      else collectFreeStrict pw textOf rest acc'

/-- index.js lines 329-335: the relaxation loop, entered when fewer
than `MAX_ARTICLES` free articles were found.  Note that it performs
no paywall check at all. -/
def collectRelaxed (textOf : Str → Str) :
    List FeedItem → List Article → List Article
  | [], acc => acc
  | it :: rest, acc =>
    if MAX_ARTICLES ≤ acc.length then acc
    else if hasLink acc it.link then collectRelaxed textOf rest acc
    else collectRelaxed textOf rest (acc ++ [mkArticle it (textOf it.link)])

/-- index.js lines 308-336: the complete `freeArticles` computation. -/
def freeArticlesOf (pw : Str → Bool) (textOf : Str → Str)
    (candidates : List FeedItem) : List Article :=
  let a1 := collectFreeStrict pw textOf candidates []
  if a1.length < MAX_ARTICLES then collectRelaxed textOf candidates a1 else a1

/-- The article projection handed to the renderer (index.js line 425). -/
structure ArticleProj where
  title : Str
  link : Str
  source : Str
  excerpt : Str
deriving DecidableEq

/-- index.js line 425: `freeArticles.slice(0, MAX_ARTICLES).map(...)`,
the article list of the final EmailPayload. -/
def payloadArticles (pw : Str → Bool) (textOf : Str → Str)
    (candidates : List FeedItem) : List ArticleProj :=
  ((freeArticlesOf pw textOf candidates).take MAX_ARTICLES).map
    (fun a => { title := a.title, link := a.link, source := a.source, excerpt := a.excerpt })

/-- A match record of the Yahoo symbol-search endpoint (index.js line
361); an absent `symbol` is modelled by the empty (falsy) string. -/
structure SearchResult where
  symbol : Str
  shortname : Str
deriving DecidableEq

/-- A quote record of the Yahoo quote endpoint (index.js lines 367-373);
absent string fields are the empty string, an absent market cap is
`none`. -/
structure Quote where
  shortName : Str
  longName : Str
  marketCap : Option Int
  longBusinessSummary : Str
deriving DecidableEq

/-- A resolved ticker (the values of `tickerMap`, index.js line 368). -/
structure TickerRecord where
  symbol : Str
  name : Str
  marketCap : Option Int
  summary : Str
deriving DecidableEq

/-- JavaScript `quote.marketCap || null`: `0` is falsy and becomes
`null` (index.js line 371). -/
def jsOrNull : Option Int → Option Int
  | none => none
  | some c => if c = 0 then none else some c

/-- index.js lines 368-373: the record stored under an uppercased
symbol. -/
def mkTickerRecord (symbol orgName : Str) (r : SearchResult) (q : Quote) :
    TickerRecord :=
  { symbol := symbol,
    name := jsOr q.shortName (jsOr q.longName (jsOr r.shortname orgName)),
    marketCap := jsOrNull q.marketCap,
    summary := q.longBusinessSummary }

/-- `tickerMap`, an insertion-ordered symbol-keyed map (a JS object
with non-numeric keys preserves insertion order). -/
abbrev TMap := List (Str × TickerRecord)

def hasSymbol (m : TMap) (s : Str) : Bool :=
  m.any (fun kv => decide (kv.1 = s))

/-- index.js lines 361-375: the body of the inner `for (const r of
results)` loop: skip results without a symbol, skip symbols already in
the map, otherwise fetch the quote (`quoteOf`, modelling `fetchQuote`)
and store the record on success. -/
def addStep (quoteOf : Str → Option Quote) (orgName : Str)
    (m : TMap) (r : SearchResult) : TMap :=
  if r.symbol = [] then m
  else
    let symbol := upperStr r.symbol
    if hasSymbol m symbol then m
    else
      match quoteOf symbol with
      | some q => m ++ [(symbol, mkTickerRecord symbol orgName r q)]
      | none => m

/-- index.js lines 360-376: process the search results of one
organization name. -/
def addSearchResults (quoteOf : Str → Option Quote) (orgName : Str)
    (rs : List SearchResult) (m : TMap) : TMap :=
  rs.foldl (addStep quoteOf orgName) m

/-- index.js lines 357-379: the Ticker Resolver loop over the ranked
organization names.  After each organization the loop stops if the map
has reached 40 entries. -/
def resolveTickers (searchOf : Str → List SearchResult)
    (quoteOf : Str → Option Quote) : List Str → TMap → TMap
  | [], m => m
  | org :: rest, m =>
    let m' := addSearchResults quoteOf org (searchOf org) m
    if 40 ≤ m'.length then m'
    else resolveTickers searchOf quoteOf rest m'

/-- `(t.marketCap || 0)`: the sort key of index.js line 383. -/
def capOf (t : TickerRecord) : Int := t.marketCap.getD 0

/-- The ordering realised by `tickers.sort((a,b) => (b.marketCap||0) -
(a.marketCap||0))`: `a` may precede `b` iff the comparator is ≤ 0. -/
def tickerGE (a b : TickerRecord) : Prop := capOf b ≤ capOf a

instance : DecidableRel tickerGE :=
  fun a b => inferInstanceAs (Decidable (capOf b ≤ capOf a))

instance : IsTotal TickerRecord tickerGE :=
  ⟨fun a b => le_total (capOf b) (capOf a)⟩

instance : IsTrans TickerRecord tickerGE :=
  ⟨fun _ _ _ hab hbc => le_trans hbc hab⟩

/-- index.js lines 382-383: the resolved pool sorted descending by
market capitalization (capless entries as zero). -/
def sortTickers (l : List TickerRecord) : List TickerRecord :=
  List.insertionSort tickerGE l

/-- A pick (index.js lines 395, 404, 414). -/
structure Pick where
  name : Str
  ticker : Str
  marketCap : Option Int
  reason : Str
  link : Str
deriving DecidableEq

/-- The deep link of index.js line 395 etc. -/
def quoteLink (s : Str) : Str := "https://finance.yahoo.com/quote/".data ++ s

/-- `picks.find(p => p.ticker === s)` viewed as a Boolean. -/
def hasTicker (picks : List Pick) (s : Str) : Bool :=
  picks.any (fun p => decide (p.ticker = s))

/-- index.js lines 392-397 (and part_000 lines 260-265): the anchor
tier.  The rationale string differs between the two variants, so it is
a parameter. -/
def anchorTier (reason : Str) (tickers : List TickerRecord) :
    List Str → List Pick → List Pick
  | [], picks => picks
  | s :: rest, picks =>
    match tickers.find? (fun t => decide (t.symbol = s)) with
    | some f =>
      if picks.length < 5 then
        if hasTicker picks f.symbol then anchorTier reason tickers rest picks
        else anchorTier reason tickers rest
          (picks ++ [{ name := f.name, ticker := f.symbol,
                       marketCap := f.marketCap, reason := reason,
                       link := quoteLink f.symbol }])
      else anchorTier reason tickers rest picks
    | none => anchorTier reason tickers rest picks

def SMALL_CAP_MIN : Int := 300000000
def SMALL_CAP_MAX : Int := 2000000000
def DESIRED_SMALL_CAP_COUNT : Nat := 3

/-- index.js line 400: `t.marketCap && t.marketCap >= min && <= max`
(a `0` or `null` market cap is falsy). -/
def isSmallCap (t : TickerRecord) : Bool :=
  match t.marketCap with
  | none => false
  | some c => decide (c ≠ 0) && decide (SMALL_CAP_MIN ≤ c) && decide (c ≤ SMALL_CAP_MAX)

/-- index.js lines 400-401: the small-cap slice of the pool. -/
def smallsOf (tickers : List TickerRecord) : List TickerRecord :=
  (tickers.filter isSmallCap).take DESIRED_SMALL_CAP_COUNT

/-- index.js lines 402-407 (identical in part_000 lines 270-275): push
each small-cap not already picked, breaking once 5 picks exist (the
break is tested after the push). -/
def smallTier : List TickerRecord → List Pick → List Pick
  | [], picks => picks
  | s :: rest, picks =>
    let picks' :=
      if hasTicker picks s.symbol then picks
      else picks ++ [{ name := s.name, ticker := s.symbol,
                       marketCap := s.marketCap,
                       reason := "Small-cap AI opportunity (news mentions & NER)".data,
                       link := quoteLink s.symbol }]
    if 5 ≤ picks'.length then picks' else smallTier rest picks'

/-- index.js lines 410-417 (identical in part_000 lines 278-285): the
backfill walk over the full (sorted) pool. -/
def backfillLoop : List TickerRecord → List Pick → List Pick
  | [], picks => picks
  | t :: rest, picks =>
    if 5 ≤ picks.length then picks
    else if hasTicker picks t.symbol then backfillLoop rest picks
    else backfillLoop rest
      (picks ++ [{ name := t.name, ticker := t.symbol,
                   marketCap := t.marketCap,
                   reason := "AI-related mention & market cap".data,
                   link := quoteLink t.symbol }])

def backfillTier (tickers : List TickerRecord) (picks : List Pick) : List Pick :=
  if picks.length < 5 then backfillLoop tickers picks else picks

/-- index.js lines 386-421: the whole Pick Selector of index.js.  The
two randomly shuffled anchor symbols are a parameter (`anchorSymbols`).
NOTE: index.js computes its fallback pool (lines 420-421) but contains
no loop appending from it, so the selector ends after the backfill
tier. -/
def buildPicks (anchorSymbols : List Str) (tickers : List TickerRecord) :
    List Pick :=
  backfillTier tickers
    (smallTier (smallsOf tickers)
      (anchorTier "Large-cap AI/tech exposure".data tickers anchorSymbols []))

/-- index.js line 387. -/
def allAnchorSymbols : List Str :=
  ["NVDA".data, "MSFT".data, "GOOGL".data, "AMD".data, "INTC".data,
   "QCOM".data, "META".data, "TSLA".data, "AMZN".data, "NFLX".data,
   "AAPL".data]

/-- index.js line 420: the fallback pool, computed but never consumed. -/
def allFallback : List Str :=
  ["NVDA".data, "MSFT".data, "GOOGL".data, "AMD".data, "BOTZ".data,
   "QQQ".data, "ARKF".data, "ROBO".data, "XLK".data, "IVW".data]

/-- part_000 line 259: the fixed anchor list of the legacy variant. -/
def legacyAnchorSymbols : List Str :=
  ["NVDA".data, "MSFT".data, "GOOGL".data, "AMD".data, "INTC".data, "QCOM".data]

/-- part_000 line 288: the legacy fallback pool. -/
def legacyFallbackSymbols : List Str :=
  ["NVDA".data, "MSFT".data, "GOOGL".data, "AMD".data, "BOTZ".data]

/-- part_000 lines 289-294: the fallback tier that pads the pick list
from the static pool. -/
def fallbackTier : List Str → List Pick → List Pick
  | [], picks => picks
  | s :: rest, picks =>
    if 5 ≤ picks.length then picks
    else if hasTicker picks s then fallbackTier rest picks
    else fallbackTier rest
      (picks ++ [{ name := s, ticker := s, marketCap := none,
                   reason := "Fallback anchor".data, link := quoteLink s }])

/-- part_000 lines 258-294: the legacy Pick Selector with all four
tiers, including the fallback pad. -/
def buildPicksLegacy (tickers : List TickerRecord) : List Pick :=
  fallbackTier legacyFallbackSymbols
    (backfillTier tickers
      (smallTier (smallsOf tickers)
        (anchorTier "Anchor large-cap AI/infra exposure".data tickers
          legacyAnchorSymbols [])))

/-- Model of `String.prototype.replace(/c/g, r)` for a single-character
pattern: every occurrence of `c` is replaced by `r`, scanning the
original string once. -/
def replaceChar (c : Char) (r : Str) (s : Str) : Str :=
  s.flatMap (fun x => if x = c then r else [x])

/-- index.js lines 292-295: `escapeHtml(s)`.  A falsy argument
(`null`/`undefined`, modelled by `none`, or the empty string) yields
the empty string; otherwise `&`, `<`, `>` and `"` are replaced by
their entities, `&` first. -/
def escapeHtml : Option Str → Str
  | none => []
  | some s =>
    if s = [] then []
    else
      replaceChar '"' "&quot;".data
        (replaceChar '>' "&gt;".data
          (replaceChar '<' "&lt;".data
            (replaceChar '&' "&amp;".data s)))

/-- index.js line 154: the excerpt as embedded,
`escapeHtml(a.excerpt || '').replace(/\n/g, ' ')`. -/
def excerptHtml (e : Str) : Str :=
  replaceChar '\n' " ".data (escapeHtml (some e))

/-- index.js line 155: the list item rendered for one article.  The
title, source and excerpt pass through `escapeHtml`; the link and the
brand color are embedded raw. -/
def articleLi (brandColor : Str) (a : ArticleProj) : Str :=
  "<li style=\"margin-bottom: 12px; line-height: 1.6;\"><a href=\"".data
    ++ a.link
    ++ "\" style=\"color: ".data
    ++ brandColor
    ++ "; text-decoration: none; font-weight: 600;\">".data
    ++ escapeHtml (some a.title)
    ++ "</a> — <em style=\"color: #666;\">".data
    ++ escapeHtml (some a.source)
    ++ "</em><div style=\"margin-top: 6px; color: #555; font-size: 13px;\">".data
    ++ excerptHtml a.excerpt
    ++ "</div></li>".data

/-- Decimal rendering of a number, for the `${idx+1}` interpolation. -/
def natStr (n : Nat) : Str := (toString n).data

/-- index.js lines 146-150: the block rendered for one pick.  The
rationale `p.reason || p.summary || ''` passes through `escapeHtml`
(pick records carry a `reason` and never a `summary` field, so the
chain is `jsOr p.reason []`); the pick name, ticker and link are
embedded raw.  `formatMoney` performs IEEE-754 division and `toFixed`
formatting, so it is kept abstract as the parameter `fm`: it consumes
only the market capitalization, which the escaping property does not
touch. -/
def pickDiv (fm : Option Int → Str) (brandColor : Str) (idx : Nat) (p : Pick) : Str :=
  "<div style=\"margin-bottom: 16px; padding: 14px; border-left: 4px solid ".data
    ++ brandColor
    ++ "; background: #f9faf8; border-radius: 8px;\">\n      <h3 style=\"margin: 0 0 6px 0; font-size: 16px; color: #2b4b3a;\">".data
    ++ natStr (idx + 1)
    ++ ". ".data
    ++ p.name
    ++ " ".data
    ++ (if p.ticker = [] then [] else "(".data ++ p.ticker ++ ")".data)
    ++ "</h3>\n      <p style=\"margin: 0 0 8px 0; color: #444; font-size: 14px;\">".data
    ++ escapeHtml (some (jsOr p.reason []))
    ++ (match p.marketCap with
        | none => []
        | some c =>
          if c = 0 then []
          else "<br><strong>Market cap:</strong> ".data ++ fm (some c))
    ++ "</p>\n      <a href=\"".data
    ++ jsOr p.link "#".data
    ++ "\" style=\"display: inline-block; padding: 8px 12px; background: #111; color: #fff; text-decoration: none; border-radius: 6px; font-size: 13px; font-weight: 600;\">View snapshot</a>\n    </div>".data
/-- C4: the error branch of `isLikelyPaywalled` always classifies as
PAYWALLED (`true`), never FREE: for every fetch/parse error the
classifier fails closed. -/
theorem c4_fail_closed (e : Str) : isLikelyPaywalled (Except.error e) = true := rfl

/-- C8: the Keyword Filter is idempotent: filtering an already-filtered
item list returns it unchanged. -/
theorem c8_keyword_filter_idempotent (items : List FeedItem) :
    keywordFilter (keywordFilter items) = keywordFilter items := by
  simp [keywordFilter, List.filter_filter]

/-- The feed item of the scenario: title "Local bakery wins award",
source "Daily Gazette". -/
def bakeryItem : FeedItem :=
  { title := "Local bakery wins award".data,
    link := "https://example.com/bakery".data,
    pubDate := none,
    source := "Daily Gazette".data }

/-- C3 counterexample: the claim says the bakery item is rejected by
the Keyword Filter; in fact the filter keeps it, because the lowercased
source name "daily gazette" contains the lowercased keyword "ai" as a
substring of "daily". -/
theorem c3_bakery_item_not_rejected :
    ¬ (keywordFilter [bakeryItem] = []) := by decide

/-- C3 amended: the item's title matches no keyword, but its source
name "Daily Gazette" matches the keyword "AI" case-insensitively (as a
substring of "daily"), so the Keyword Filter keeps the item and it
proceeds downstream. -/
theorem c3_bakery_item_passes :
    matchesKeywords bakeryItem.title = false ∧
    matchesKeywords bakeryItem.source = true ∧
    keywordFilter [bakeryItem] = [bakeryItem] := by decide

theorem mem_replaceChar {x c : Char} {r s : Str} (h : x ∈ replaceChar c r s) :
    x ∈ r ∨ (x ∈ s ∧ x ≠ c) := by
  simp only [replaceChar, List.mem_flatMap] at h
  obtain ⟨a, ha, hx⟩ := h
  by_cases hac : a = c
  · rw [if_pos hac] at hx
    exact Or.inl hx
  · rw [if_neg hac] at hx
    simp only [List.mem_singleton] at hx
    subst hx
    exact Or.inr ⟨ha, hac⟩

theorem self_not_mem_replaceChar {c : Char} {r : Str} (hr : c ∉ r) (s : Str) :
    c ∉ replaceChar c r s := by
  intro h
  rcases mem_replaceChar h with h1 | ⟨_, h2⟩
  · exact hr h1
  · exact h2 rfl

theorem not_mem_replaceChar {x c : Char} {r s : Str} (hs : x ∉ s) (hr : x ∉ r) :
    x ∉ replaceChar c r s := by
  intro h
  rcases mem_replaceChar h with h1 | ⟨h2, _⟩
  · exact hr h1
  · exact hs h2

theorem lt_not_mem_escapeHtml (s : Option Str) : '<' ∉ escapeHtml s := by
  match s with
  | none => simp [escapeHtml]
  | some s =>
    by_cases hs : s = []
    · simp [escapeHtml, hs]
    · rw [escapeHtml, if_neg hs]
      exact not_mem_replaceChar
        (not_mem_replaceChar
          (self_not_mem_replaceChar (by decide) _)
          (by decide))
        (by decide)

theorem gt_not_mem_escapeHtml (s : Option Str) : '>' ∉ escapeHtml s := by
  match s with
  | none => simp [escapeHtml]
  | some s =>
    by_cases hs : s = []
    · simp [escapeHtml, hs]
    · rw [escapeHtml, if_neg hs]
      exact not_mem_replaceChar
        (self_not_mem_replaceChar (by decide) _)
        (by decide)

theorem quot_not_mem_escapeHtml (s : Option Str) : '"' ∉ escapeHtml s := by
  match s with
  | none => simp [escapeHtml]
  | some s =>
    by_cases hs : s = []
    · simp [escapeHtml, hs]
    · rw [escapeHtml, if_neg hs]
      exact self_not_mem_replaceChar (by decide) _

theorem count_escapeHtml_eq_zero {x : Char} (hx : ∀ s, x ∉ escapeHtml s)
    (s : Option Str) : List.count x (escapeHtml s) = 0 :=
  List.count_eq_zero.mpr (hx s)

theorem count_excerptHtml_eq_zero {x : Char}
    (hx : ∀ s, x ∉ escapeHtml s) (hsp : x ∉ " ".data) (e : Str) :
    List.count x (excerptHtml e) = 0 :=
  List.count_eq_zero.mpr (not_mem_replaceChar (hx (some e)) hsp)

/-- C10: `escapeHtml` never leaves a raw `<`, `>` or `"` in its output
(ampersands are escaped first, so entities are not double-escaped); a
null or empty input yields the empty string; and in both rendered
fragments — the article list item and the pick block — the number of
raw `<`, `>` and `"` characters is independent of the escaped fields
(article title, source name, excerpt; pick rationale), because the
renderer passes each of them through `escapeHtml` before embedding
(only the raw-embedded link, name, ticker and brand color can
contribute further such characters). -/
theorem c10_escapeHtml_safe :
    (∀ s, '<' ∉ escapeHtml s ∧ '>' ∉ escapeHtml s ∧ '"' ∉ escapeHtml s) ∧
    escapeHtml none = [] ∧ escapeHtml (some []) = [] ∧
    (∀ b a, List.count '<' (articleLi b a) =
              List.count '<' (articleLi b { a with title := [], source := [], excerpt := [] }) ∧
            List.count '>' (articleLi b a) =
              List.count '>' (articleLi b { a with title := [], source := [], excerpt := [] }) ∧
            List.count '"' (articleLi b a) =
              List.count '"' (articleLi b { a with title := [], source := [], excerpt := [] })) ∧
    (∀ (fm : Option Int → Str) (b : Str) (i : Nat) (p : Pick),
      List.count '<' (pickDiv fm b i p) =
        List.count '<' (pickDiv fm b i { p with reason := [] }) ∧
      List.count '>' (pickDiv fm b i p) =
        List.count '>' (pickDiv fm b i { p with reason := [] }) ∧
      List.count '"' (pickDiv fm b i p) =
        List.count '"' (pickDiv fm b i { p with reason := [] })) := by
  refine ⟨fun s => ⟨lt_not_mem_escapeHtml s, gt_not_mem_escapeHtml s, quot_not_mem_escapeHtml s⟩,
    rfl, rfl, fun b a => ⟨?_, ?_, ?_⟩, fun fm b i p => ⟨?_, ?_, ?_⟩⟩ <;>
    simp only [articleLi, pickDiv, List.count_append,
      count_escapeHtml_eq_zero lt_not_mem_escapeHtml,
      count_escapeHtml_eq_zero gt_not_mem_escapeHtml,
      count_escapeHtml_eq_zero quot_not_mem_escapeHtml,
      count_excerptHtml_eq_zero lt_not_mem_escapeHtml (by decide),
      count_excerptHtml_eq_zero gt_not_mem_escapeHtml (by decide),
      count_excerptHtml_eq_zero quot_not_mem_escapeHtml (by decide)]

/-- A string free of whitespace characters. -/
def wsFree (w : Str) : Prop := ∀ ch ∈ w, ch.isWhitespace = false

theorem splitWs_ne_nil (t : Str) : splitWs t ≠ [] := by
  cases t with
  | nil => simp [splitWs]
  | cons c cs =>
    rw [splitWs]
    split
    · simp
    · split <;> simp

theorem splitWs_wsFree : ∀ (t : Str), ∀ w ∈ splitWs t, wsFree w
  | [] => by
    intro w hw
    simp only [splitWs, List.mem_singleton] at hw
    subst hw
    intro ch hch
    cases hch
  | c :: cs => by
    intro w hw
    rw [splitWs] at hw
    cases h : c.isWhitespace with
    | true =>
      rw [h] at hw
      simp only [if_true] at hw
      rcases List.mem_cons.mp hw with rfl | hw'
      · intro ch hch; cases hch
      · exact splitWs_wsFree cs w hw'
    | false =>
      rw [h] at hw
      simp only [Bool.false_eq_true, if_false] at hw
      cases hcs : splitWs cs with
      | nil => exact absurd hcs (splitWs_ne_nil cs)
      | cons w' ws' =>
        rw [hcs] at hw
        rcases List.mem_cons.mp hw with rfl | hw'
        · intro ch hch
          rcases List.mem_cons.mp hch with rfl | hch'
          · exact h
          · refine splitWs_wsFree cs w' ?_ ch hch'
            rw [hcs]
            exact List.mem_cons_self w' ws'
        · refine splitWs_wsFree cs w ?_
          rw [hcs]
          exact List.mem_cons_of_mem _ hw'

theorem splitWs_append_word : ∀ (w : Str), wsFree w → ∀ (l s : Str) (ss : List Str),
    splitWs l = s :: ss → splitWs (w ++ l) = (w ++ s) :: ss
  | [], _, l, s, ss, h => by simpa using h
  | c :: w', hw, l, s, ss, h => by
    have hc : c.isWhitespace = false := hw c (List.mem_cons_self c w')
    have ih := splitWs_append_word w'
      (fun ch hch => hw ch (List.mem_cons_of_mem c hch)) l s ss h
    show splitWs (c :: (w' ++ l)) = (c :: (w' ++ s)) :: ss
    rw [splitWs, hc]
    simp only [Bool.false_eq_true, if_false]
    rw [ih]

theorem splitWs_space_cons (l : Str) : splitWs (' ' :: l) = [] :: splitWs l := by
  rw [splitWs]
  simp

theorem wordsOf_joinSp : ∀ (ws : List Str),
    (∀ w ∈ ws, w ≠ [] ∧ wsFree w) → wordsOf (joinSp ws) = ws
  | [], _ => by simp [joinSp, wordsOf, splitWs]
  | [w], h => by
    obtain ⟨hne, hfree⟩ := h w (List.mem_singleton_self w)
    have hsp : splitWs w = [w] := by
      have := splitWs_append_word w hfree [] [] [] rfl
      simpa using this
    simp [joinSp, wordsOf, hsp, List.isEmpty_iff, hne]
  | w :: x :: rest, h => by
    obtain ⟨hne, hfree⟩ := h w (List.mem_cons_self _ _)
    have ih := wordsOf_joinSp (x :: rest)
      (fun u hu => h u (List.mem_cons_of_mem w hu))
    show wordsOf (w ++ ' ' :: joinSp (x :: rest)) = w :: x :: rest
    obtain ⟨s, ss, hsp⟩ : ∃ s ss, splitWs (joinSp (x :: rest)) = s :: ss := by
      cases hq : splitWs (joinSp (x :: rest)) with
      | nil => exact absurd hq (splitWs_ne_nil _)
      | cons s ss => exact ⟨s, ss, rfl⟩
    have hsp2 : splitWs (' ' :: joinSp (x :: rest)) = [] :: s :: ss := by
      rw [splitWs_space_cons, hsp]
    have hsp3 := splitWs_append_word w hfree _ _ _ hsp2
    rw [wordsOf, hsp3, List.append_nil]
    have hwne : (!w.isEmpty) = true := by
      simpa [List.isEmpty_iff] using hne
    rw [List.filter_cons, if_pos hwne]
    congr 1
    have : wordsOf (joinSp (x :: rest)) = List.filter (fun u => !u.isEmpty) (s :: ss) := by
      rw [wordsOf, hsp]
    rw [← this, ih]

theorem length_wordsOf_firstNWords_le (t : Str) (n : Nat) :
    (wordsOf (firstNWords t n)).length ≤ n := by
  by_cases ht : t = []
  · simp [firstNWords, ht, wordsOf, splitWs]
  · rw [firstNWords, if_neg ht]
    have hmem : ∀ w ∈ (wordsOf t).take n, w ≠ [] ∧ wsFree w := by
      intro w hw
      have hw' : w ∈ wordsOf t := List.take_subset n (wordsOf t) hw
      rw [wordsOf, List.mem_filter] at hw'
      refine ⟨?_, splitWs_wsFree t w hw'.1⟩
      have := hw'.2
      simpa [List.isEmpty_iff] using this
    rw [wordsOf_joinSp _ hmem, List.length_take]
    exact min_le_left n _

theorem mkArticle_excerpt_bound (it : FeedItem) (text : Str) :
    (wordsOf (mkArticle it text).excerpt).length ≤ 100 :=
  length_wordsOf_firstNWords_le text 100

theorem collectFreeStrict_excerpt_bound (pw : Str → Bool) (textOf : Str → Str) :
    ∀ (cands : List FeedItem) (acc : List Article),
      (∀ a ∈ acc, (wordsOf a.excerpt).length ≤ 100) →
      ∀ a ∈ collectFreeStrict pw textOf cands acc,
        (wordsOf a.excerpt).length ≤ 100
  | [], acc, hacc => by
    simpa [collectFreeStrict] using hacc
  | it :: rest, acc, hacc => by
    simp only [collectFreeStrict]
    have hpush : ∀ a ∈ acc ++ [mkArticle it (textOf it.link)],
        (wordsOf a.excerpt).length ≤ 100 := by
      intro a ha
      rcases List.mem_append.mp ha with ha' | ha'
      · exact hacc a ha'
      · rw [List.mem_singleton.mp ha']
        exact mkArticle_excerpt_bound it (textOf it.link)
    split_ifs with h1 h2 h3 h4 h5
    · exact collectFreeStrict_excerpt_bound pw textOf rest acc hacc
    · exact collectFreeStrict_excerpt_bound pw textOf rest acc hacc
    · exact hacc
    · exact collectFreeStrict_excerpt_bound pw textOf rest acc hacc
    · exact hpush
    · exact collectFreeStrict_excerpt_bound pw textOf rest _ hpush

theorem collectRelaxed_excerpt_bound (textOf : Str → Str) :
    ∀ (cands : List FeedItem) (acc : List Article),
      (∀ a ∈ acc, (wordsOf a.excerpt).length ≤ 100) →
      ∀ a ∈ collectRelaxed textOf cands acc,
        (wordsOf a.excerpt).length ≤ 100
  | [], acc, hacc => by
    simpa [collectRelaxed] using hacc
  | it :: rest, acc, hacc => by
    simp only [collectRelaxed]
    split_ifs with h1 h2
    · exact hacc
    · exact collectRelaxed_excerpt_bound textOf rest acc hacc
    · refine collectRelaxed_excerpt_bound textOf rest _ ?_
      intro a ha
      rcases List.mem_append.mp ha with ha' | ha'
      · exact hacc a ha'
      · rw [List.mem_singleton.mp ha']
        exact mkArticle_excerpt_bound it (textOf it.link)

theorem freeArticlesOf_excerpt_bound (pw : Str → Bool) (textOf : Str → Str)
    (cands : List FeedItem) :
    ∀ a ∈ freeArticlesOf pw textOf cands, (wordsOf a.excerpt).length ≤ 100 := by
  intro a ha
  rw [freeArticlesOf] at ha
  split_ifs at ha with h1
  · exact collectRelaxed_excerpt_bound textOf cands _
      (collectFreeStrict_excerpt_bound pw textOf cands [] (by intro a ha; cases ha))
      a ha
  · exact collectFreeStrict_excerpt_bound pw textOf cands [] (by intro a ha; cases ha) a ha

/-- C7: `firstNWords(text, 100)` keeps at most 100 whitespace-delimited
tokens, and consequently every article excerpt in the final
EmailPayload contains at most 100 whitespace-delimited tokens. -/
theorem c7_excerpt_word_bound :
    (∀ t : Str, (wordsOf (firstNWords t 100)).length ≤ 100) ∧
    (∀ (pw : Str → Bool) (textOf : Str → Str) (cands : List FeedItem),
      ∀ a ∈ payloadArticles pw textOf cands,
        (wordsOf a.excerpt).length ≤ 100) := by
  refine ⟨fun t => length_wordsOf_firstNWords_le t 100, ?_⟩
  intro pw textOf cands a ha
  rw [payloadArticles] at ha
  obtain ⟨b, hb, rfl⟩ := List.mem_map.mp ha
  exact freeArticlesOf_excerpt_bound pw textOf cands b
    (List.take_subset MAX_ARTICLES _ hb)

/-- A feed item used as a concrete input in witnesses below. -/
def demoFeedItem : FeedItem :=
  { title := "New LLM breakthrough announced".data,
    link := "https://example.com/llm".data,
    pubDate := none,
    source := "TechCrunch".data }

/-- A paywall oracle classifying everything FREE. -/
def pwFreeAll : Str → Bool := fun _ => false

/-- An article-text oracle returning a fixed two-word body. -/
def demoTextOf : Str → Str := fun _ => "word1 word2".data

/-- The payload article produced from `demoFeedItem` under the demo
oracles. -/
def demoProj : ArticleProj :=
  { title := "New LLM breakthrough announced".data,
    link := "https://example.com/llm".data,
    source := "TechCrunch".data,
    excerpt := "word1 word2".data }

/-- C7 witness: the payload built from one free two-word article
contains that article, and its excerpt has at most 100 tokens. -/
theorem c7_excerpt_word_bound_witness :
    demoProj ∈ payloadArticles pwFreeAll demoTextOf [demoFeedItem] ∧
    (wordsOf demoProj.excerpt).length ≤ 100 :=
  ⟨by decide, c7_excerpt_word_bound.2 pwFreeAll demoTextOf [demoFeedItem] demoProj (by decide)⟩

theorem collectFreeStrict_all_free (pw : Str → Bool) (textOf : Str → Str) :
    ∀ (cands : List FeedItem) (acc : List Article),
      (∀ a ∈ acc, pw a.link = false) →
      ∀ a ∈ collectFreeStrict pw textOf cands acc, pw a.link = false
  | [], acc, hacc => by
    simpa [collectFreeStrict] using hacc
  | it :: rest, acc, hacc => by
    simp only [collectFreeStrict]
    split_ifs with h1 h2 h3 h4 h5
    · exact collectFreeStrict_all_free pw textOf rest acc hacc
    · exact collectFreeStrict_all_free pw textOf rest acc hacc
    · exact hacc
    · exact collectFreeStrict_all_free pw textOf rest acc hacc
    · intro a ha
      rcases List.mem_append.mp ha with ha' | ha'
      · exact hacc a ha'
      · rw [List.mem_singleton.mp ha']
        exact Bool.eq_false_iff.mpr h3
    · refine collectFreeStrict_all_free pw textOf rest _ ?_
      intro a ha
      rcases List.mem_append.mp ha with ha' | ha'
      · exact hacc a ha'
      · rw [List.mem_singleton.mp ha']
        exact Bool.eq_false_iff.mpr h3

/-- A fetch oracle for which every page fetch fails. -/
def fetchFailAll : Str → Except Str Page := fun _ => Except.error "timeout".data

/-- The paywall classification induced by the always-failing fetch:
every URL is classified PAYWALLED (fail-closed). -/
def pwAll : Str → Bool := fun l => isLikelyPaywalled (fetchFailAll l)

/-- C2 counterexample: with one candidate whose fetch fails, the
Accessibility Classifier classifies it PAYWALLED, yet the article still
appears in the final EmailPayload article list, because the relaxation
loop (index.js lines 327-336) appends candidates without any paywall
check.  So not every payload article was classified FREE. -/
theorem c2_relaxation_bypasses_check :
    ¬ (∀ a ∈ payloadArticles pwAll demoTextOf [demoFeedItem],
        pwAll a.link = false) := by decide

/-- C2 amended: every article accepted by the primary selection loop
was classified FREE by the Accessibility Classifier; only the
relaxation pass (entered when fewer than 10 free articles were found)
appends articles without the paywall check. -/
theorem c2_primary_loop_all_free (pw : Str → Bool) (textOf : Str → Str)
    (cands : List FeedItem) :
    ∀ a ∈ collectFreeStrict pw textOf cands [], pw a.link = false :=
  collectFreeStrict_all_free pw textOf cands [] (by intro a ha; cases ha)

/-- The article assembled from `demoFeedItem` under the demo oracles. -/
def demoArticle : Article :=
  { title := "New LLM breakthrough announced".data,
    link := "https://example.com/llm".data,
    pubDate := none,
    source := "TechCrunch".data,
    text := "word1 word2".data,
    excerpt := "word1 word2".data }

/-- C2 witness: the primary loop run on one candidate under the
everything-free oracle accepts it, and the theorem yields that it was
classified FREE. -/
theorem c2_primary_loop_all_free_witness :
    demoArticle ∈ collectFreeStrict pwFreeAll demoTextOf [demoFeedItem] [] ∧
    pwFreeAll demoArticle.link = false :=
  ⟨by decide,
   c2_primary_loop_all_free pwFreeAll demoTextOf [demoFeedItem] demoArticle (by decide)⟩

/-- C6: after the Ticker Resolver sorts the pool, market caps are
non-increasing along the list (a missing cap counts as zero): whenever
the entry at position `i` has a strictly larger cap than the entry at
position `j`, it appears no later (`i ≤ j`). -/
theorem c6_pool_sorted_by_cap (pool : List TickerRecord)
    (i j : Fin (sortTickers pool).length)
    (h : capOf ((sortTickers pool).get j) < capOf ((sortTickers pool).get i)) :
    (i : ℕ) ≤ (j : ℕ) := by
  by_contra hij
  push_neg at hij
  have hs : List.Sorted tickerGE (sortTickers pool) :=
    List.sorted_insertionSort tickerGE pool
  have hrel := hs.rel_get_of_lt (a := j) (b := i) (Fin.lt_def.mpr hij)
  exact absurd h (not_lt.mpr hrel)

/-- A two-element pool whose sort must reorder it. -/
def demoPool : List TickerRecord :=
  [{ symbol := "AAA".data, name := "Aaa Corp".data, marketCap := some 3, summary := [] },
   { symbol := "BBB".data, name := "Bbb Corp".data, marketCap := some 5, summary := [] }]

def demoI : Fin (sortTickers demoPool).length := ⟨0, by decide⟩
def demoJ : Fin (sortTickers demoPool).length := ⟨1, by decide⟩

/-- C6 witness: in the sorted demo pool the larger-cap record sits at
index 0, the smaller at index 1. -/
theorem c6_pool_sorted_by_cap_witness :
    capOf ((sortTickers demoPool).get demoJ) < capOf ((sortTickers demoPool).get demoI) ∧
    (demoI : ℕ) ≤ (demoJ : ℕ) :=
  ⟨by decide, c6_pool_sorted_by_cap demoPool demoI demoJ (by decide)⟩

/-- No two picks share a ticker symbol. -/
def NoDupTickers (picks : List Pick) : Prop :=
  picks.Pairwise (fun p q => p.ticker ≠ q.ticker)

theorem hasTicker_eq_false {picks : List Pick} {s : Str}
    (h : hasTicker picks s = false) : ∀ p ∈ picks, p.ticker ≠ s := by
  simp only [hasTicker, List.any_eq_false, decide_eq_true_eq] at h
  exact h

theorem nodup_append_pick {picks : List Pick} {pk : Pick}
    (hnd : NoDupTickers picks) (h : hasTicker picks pk.ticker = false) :
    NoDupTickers (picks ++ [pk]) := by
  rw [NoDupTickers, List.pairwise_append]
  refine ⟨hnd, List.pairwise_singleton _ _, ?_⟩
  intro p hp q hq
  rw [List.mem_singleton.mp hq]
  exact hasTicker_eq_false h p hp

theorem anchorTier_nodup (reason : Str) (tickers : List TickerRecord) :
    ∀ (anchors : List Str) (picks : List Pick),
      NoDupTickers picks → NoDupTickers (anchorTier reason tickers anchors picks)
  | [], picks, h => by simpa [anchorTier] using h
  | s :: rest, picks, h => by
    simp only [anchorTier]
    split
    · split_ifs with h1 h2
      · exact anchorTier_nodup reason tickers rest picks h
      · exact anchorTier_nodup reason tickers rest _
          (nodup_append_pick h (Bool.eq_false_iff.mpr h2))
      · exact anchorTier_nodup reason tickers rest picks h
    · exact anchorTier_nodup reason tickers rest picks h

theorem smallTier_nodup :
    ∀ (smalls : List TickerRecord) (picks : List Pick),
      NoDupTickers picks → NoDupTickers (smallTier smalls picks)
  | [], picks, h => by simpa [smallTier] using h
  | s :: rest, picks, h => by
    simp only [smallTier]
    split_ifs with h1 h2 h3
    · exact h
    · exact smallTier_nodup rest picks h
    · exact nodup_append_pick h (Bool.eq_false_iff.mpr h1)
    · exact smallTier_nodup rest _
        (nodup_append_pick h (Bool.eq_false_iff.mpr h1))

theorem backfillLoop_nodup :
    ∀ (tickers : List TickerRecord) (picks : List Pick),
      NoDupTickers picks → NoDupTickers (backfillLoop tickers picks)
  | [], picks, h => by simpa [backfillLoop] using h
  | t :: rest, picks, h => by
    simp only [backfillLoop]
    split_ifs with h1 h2
    · exact h
    · exact backfillLoop_nodup rest picks h
    · exact backfillLoop_nodup rest _
        (nodup_append_pick h (Bool.eq_false_iff.mpr h2))

theorem backfillTier_nodup (tickers : List TickerRecord) (picks : List Pick)
    (h : NoDupTickers picks) : NoDupTickers (backfillTier tickers picks) := by
  rw [backfillTier]
  split_ifs with h1
  · exact backfillLoop_nodup tickers picks h
  · exact h

theorem fallbackTier_nodup :
    ∀ (syms : List Str) (picks : List Pick),
      NoDupTickers picks → NoDupTickers (fallbackTier syms picks)
  | [], picks, h => by simpa [fallbackTier] using h
  | s :: rest, picks, h => by
    simp only [fallbackTier]
    split_ifs with h1 h2
    · exact h
    · exact fallbackTier_nodup rest picks h
    · exact fallbackTier_nodup rest _
        (nodup_append_pick h (Bool.eq_false_iff.mpr h2))

/-- C9: in both Pick Selector variants every tier appends a pick only
after checking that its symbol is not already picked, so the final pick
list never contains two picks with the same ticker, for every anchor
shuffle and every resolved ticker pool. -/
theorem c9_picks_distinct_tickers :
    (∀ (anchorSymbols : List Str) (tickers : List TickerRecord),
      (buildPicks anchorSymbols tickers).Pairwise (fun p q => p.ticker ≠ q.ticker)) ∧
    (∀ tickers : List TickerRecord,
      (buildPicksLegacy tickers).Pairwise (fun p q => p.ticker ≠ q.ticker)) := by
  constructor
  · intro anchorSymbols tickers
    exact backfillTier_nodup _ _
      (smallTier_nodup _ _
        (anchorTier_nodup _ _ _ _ List.Pairwise.nil))
  · intro tickers
    exact fallbackTier_nodup _ _
      (backfillTier_nodup _ _
        (smallTier_nodup _ _
          (anchorTier_nodup _ _ _ _ List.Pairwise.nil)))

/-- C1: on an empty resolved ticker pool the index.js Pick Selector
produces 0 picks — the fallback pool of index.js lines 420-421 is
computed but never appended (the padding loop present in the sibling
variants is missing) — while the legacy selector of part_000, whose
fallback tier does pad, produces exactly 5. -/
theorem c1_fallback_pad_missing :
    (buildPicks ["NVDA".data, "MSFT".data] []).length = 0 ∧
    (buildPicksLegacy []).length = 5 := by decide

/-- The seven organization names of the C5 counterexample run. -/
def c5orgs : List Str :=
  ["OA".data, "OB".data, "OC".data, "OD".data, "OE".data, "OF".data, "OG".data]

/-- Six search results with distinct fresh symbols for one org name. -/
def c5syms (o : Str) : List SearchResult :=
  ["1".data, "2".data, "3".data, "4".data, "5".data, "6".data].map
    (fun d => { symbol := o ++ d, shortname := [] })

/-- A search oracle returning six candidates for each of the seven
organization names and nothing otherwise. -/
def c5search : Str → List SearchResult :=
  fun o => if o ∈ c5orgs then c5syms o else []

/-- A quote oracle that always succeeds. -/
def c5quote : Str → Option Quote :=
  fun s => some { shortName := s, longName := [], marketCap := none,
                  longBusinessSummary := [] }

/-- C5 counterexample: with 7 organization names each yielding 6 fresh
symbols (within the claim's up-to-6-per-search premise), the resolved
map reaches 42 distinct symbols — more than 40 — because the 40-cap is
only tested between organizations, not inside a batch. -/
theorem c5_pool_exceeds_forty :
    40 < (resolveTickers c5search c5quote c5orgs []).length ∧
    ((resolveTickers c5search c5quote c5orgs []).map Prod.fst).Nodup ∧
    (∀ o ∈ c5orgs, (c5search o).length ≤ 6) := by decide

theorem addStep_length_le (quoteOf : Str → Option Quote) (orgName : Str)
    (m : TMap) (r : SearchResult) :
    (addStep quoteOf orgName m r).length ≤ m.length + 1 := by
  simp only [addStep]
  split_ifs with h1 h2
  · omega
  · omega
  · split
    · simp
    · omega

theorem addSearchResults_length_le (quoteOf : Str → Option Quote) (orgName : Str) :
    ∀ (rs : List SearchResult) (m : TMap),
      (addSearchResults quoteOf orgName rs m).length ≤ m.length + rs.length
  | [], m => by simp [addSearchResults]
  | r :: rs, m => by
    rw [addSearchResults, List.foldl_cons]
    have ih := addSearchResults_length_le quoteOf orgName rs (addStep quoteOf orgName m r)
    rw [addSearchResults] at ih
    have h1 := addStep_length_le quoteOf orgName m r
    have h2 : (r :: rs).length = rs.length + 1 := List.length_cons r rs
    omega

theorem resolveTickers_length_le (searchOf : Str → List SearchResult)
    (quoteOf : Str → Option Quote)
    (hsearch : ∀ o, (searchOf o).length ≤ 6) :
    ∀ (orgs : List Str) (m : TMap), m.length ≤ 39 →
      (resolveTickers searchOf quoteOf orgs m).length ≤ 45
  | [], m, hm => by
    rw [resolveTickers]
    omega
  | org :: rest, m, hm => by
    rw [resolveTickers]
    have hadd := addSearchResults_length_le quoteOf org (searchOf org) m
    have hs := hsearch org
    split_ifs with h40
    · omega
    · exact resolveTickers_length_le searchOf quoteOf hsearch rest _ (by omega)

/-- C5 amended: the Ticker Resolver tests its 40-symbol cap only after
finishing each organization's batch of search results, so the resolved
pool can exceed 40 within a final batch; with each search returning at
most 6 candidates the pool size never exceeds 39 + 6 = 45, and no new
organization is processed once 40 symbols are resolved. -/
theorem c5_resolver_bounded (searchOf : Str → List SearchResult)
    (quoteOf : Str → Option Quote) (orgs : List Str)
    (hsearch : ∀ o, (searchOf o).length ≤ 6) :
    (resolveTickers searchOf quoteOf orgs []).length ≤ 45 :=
  resolveTickers_length_le searchOf quoteOf hsearch orgs [] (by simp)

/-- C5 witness: the bound applied to a run with empty search results. -/
theorem c5_resolver_bounded_witness :
    (resolveTickers (fun _ => []) (fun _ => none) ["X".data] []).length ≤ 45 :=
  c5_resolver_bounded (fun _ => []) (fun _ => none) ["X".data] (fun _ => by simp)
